import Mathlib

/-!
Verification of the crop-prediction pipeline (model.ipynb).

The source is a small Python notebook: `preprocess_data` loads a CSV with
columns (temperature, humidity, ph, rainfall, label), label-encodes the
crop names, splits 70/30 with a fixed seed, and standardizes features;
`train_and_evaluate_model` fits a decision tree and prints a
classification report; `get_valid_input` collects bounded numeric input
interactively; `predict_and_send_to_firebase` collects four inputs,
scales them, predicts, prints the crop, and puts it to Firebase inside a
try/except; `main` gates the interactive path on a Firebase get.

The embedding below models Python floats read from the console as either
an exact rational or one of the IEEE specials (nan, +inf, -inf), strings
as Lean strings, and the effectful orchestration as traces of events.
Library calls (sklearn LabelEncoder / train_test_split / StandardScaler /
classification_report) are not in the repository; where a claim is
decided by them they are modelled from the spec, and such definitions
say so in their doc comment.
-/

namespace CropPrediction

/-- Result of Python's float() on console input: an exact rational for a
finite literal, or one of the special values nan, +inf, -inf.  Exact
rationals stand in for IEEE doubles; every literal in the claims is
exactly representable. -/
inductive PyFloat where
  | finite (q : ℚ)
  | inf
  | ninf
  | nan
deriving DecidableEq, Repr

/-- Python's `<=` on floats: any comparison involving nan is false;
-inf is below everything, +inf above everything (and inf <= inf holds). -/
def pyLe : PyFloat → PyFloat → Bool
  | PyFloat.nan, _ => false
  | _, PyFloat.nan => false
  | PyFloat.finite a, PyFloat.finite b => decide (a ≤ b)
  | PyFloat.ninf, _ => true
  | _, PyFloat.inf => true
  | PyFloat.inf, _ => false
  | PyFloat.finite _, PyFloat.ninf => false

/-- ASCII whitespace stripped by Python's str conversion of console input. -/
def isSpaceChar (c : Char) : Bool :=
  c = ' ' || c = '\t' || c = '\n' || c = '\r'

/-- Lower-case an ASCII letter, leave every other character alone. -/
def lowerChar (c : Char) : Char :=
  if 65 ≤ c.toNat && c.toNat ≤ 90 then Char.ofNat (c.toNat + 32) else c

/-- Decimal digit test on a character. -/
def isDigitChar (c : Char) : Bool :=
  48 ≤ c.toNat && c.toNat ≤ 57

/-- Strip leading and trailing whitespace from a character list. -/
def trimChars (cs : List Char) : List Char :=
  ((cs.dropWhile isSpaceChar).reverse.dropWhile isSpaceChar).reverse

/-- Split a character list at every occurrence of a separator. -/
def splitOnChar (sep : Char) : List Char → List Char → List (List Char)
  | [], acc => [acc.reverse]
  | c :: rest, acc =>
    if c = sep then acc.reverse :: splitOnChar sep rest []
    else splitOnChar sep rest (c :: acc)

/-- Numeric value of a list of decimal digits, as a natural number. -/
def digitsNat (cs : List Char) : ℕ :=
  cs.foldl (fun a c => a * 10 + (c.toNat - 48)) 0

/-- Numeric value of a list of decimal digits, as a rational.  Computed
in ℕ and cast once, so that integer literals reduce without rational
arithmetic. -/
def digitsVal (cs : List Char) : ℚ :=
  (digitsNat cs : ℚ)

/-- Ten to an integer power, as a rational. -/
def pow10 (e : ℤ) : ℚ :=
  if 0 ≤ e then (10 : ℚ) ^ e.toNat else 1 / (10 : ℚ) ^ (-e).toNat

/-- Parse the exponent part of a float literal: optional sign then at
least one digit. -/
def parseExpPart (cs : List Char) : Option ℤ :=
  let (neg, b) :=
    match cs with
    | '-' :: rest => (true, rest)
    | '+' :: rest => (false, rest)
    | _ => (false, cs)
  if b.length > 0 && b.all isDigitChar then
    some (if neg then -(digitsNat b : ℤ) else (digitsNat b : ℤ))
  else none

/-- Parse an unsigned decimal mantissa: digits with at most one decimal
point and at least one digit overall (covers "45", "4.5", ".5", "5."). -/
def parseMantissa (cs : List Char) : Option ℚ :=
  match splitOnChar '.' cs [] with
  | [a] =>
    if a.length > 0 && a.all isDigitChar then some (digitsVal a) else none
  | [a, b] =>
    if (a.length > 0 || b.length > 0) && a.all isDigitChar && b.all isDigitChar then
      some (digitsVal a + digitsVal b / (10 : ℚ) ^ b.length)
    else none
  | _ => none

/-- Parse an unsigned numeric literal with optional exponent. -/
def parseNumBody (cs : List Char) : Option ℚ :=
  match splitOnChar 'e' cs [] with
  | [m] => parseMantissa m
  | [m, e] =>
    match parseMantissa m, parseExpPart e with
    | some mv, some ev => some (mv * pow10 ev)
    | _, _ => none
  | _ => none

/-- Model of Python's float(str) on console input: strips whitespace,
handles an optional sign, the special spellings inf / infinity / nan
(case-insensitively), and decimal literals with optional fraction and
exponent.  Returns none where float() raises ValueError. -/
def parseFloat (s : String) : Option PyFloat :=
  let t := (trimChars s.data).map lowerChar
  let (neg, body) :=
    match t with
    | '-' :: rest => (true, rest)
    | '+' :: rest => (false, rest)
    | _ => (false, t)
  if body = ['i', 'n', 'f'] || body = ['i', 'n', 'f', 'i', 'n', 'i', 't', 'y'] then
    some (if neg then PyFloat.ninf else PyFloat.inf)
  else if body = ['n', 'a', 'n'] then some PyFloat.nan
  else (parseNumBody body).map fun q =>
    PyFloat.finite (if neg then -q else q)

/-- Message printed by get_valid_input for an out-of-range value. -/
def rangeMsg (minV maxV : ℚ) : String :=
  "Please enter a value between " ++ toString minV ++ " and " ++ toString maxV ++ "."

/-- Message printed by get_valid_input for a non-numeric value. -/
def invalidMsg : String :=
  "Invalid input. Please enter a numeric value."

/-- A console value is accepted by get_valid_input when it parses as a
float and passes the chained comparison min_val <= value <= max_val. -/
def validOk (minV maxV : ℚ) (s : String) : Bool :=
  match parseFloat s with
  | some v => pyLe (PyFloat.finite minV) v && pyLe v (PyFloat.finite maxV)
  | none => false

/-- Renumber a successful validation result after one more failed
attempt: the accepted value keeps its identity, its attempt index moves
one later. -/
def bumpAttempt (p : PyFloat × ℕ × List String) : PyFloat × ℕ × List String :=
  (p.1, p.2.1 + 1, p.2.2)

/-- Embedding of get_valid_input.  The console is a finite list of
lines; the result is the list of messages printed plus, when some line
is accepted, the accepted value, its 1-based attempt index, and the
unread remainder of the console.  none models the loop still waiting
for input when the console is exhausted (the Python loop is unbounded). -/
def get_valid_input (minV maxV : ℚ) : List String → List String × Option (PyFloat × ℕ × List String)
  | [] => ([], none)
  | s :: rest =>
    match parseFloat s with
    | none =>
      let r := get_valid_input minV maxV rest
      (invalidMsg :: r.1, r.2.map bumpAttempt)
    | some v =>
      if pyLe (PyFloat.finite minV) v && pyLe v (PyFloat.finite maxV) then
        ([], some (v, 1, rest))
      else
        let r := get_valid_input minV maxV rest
        (rangeMsg minV maxV :: r.1, r.2.map bumpAttempt)

theorem get_valid_input_cons_invalid (minV maxV : ℚ) (s : String) (rest : List String)
    (hp : parseFloat s = none) :
    get_valid_input minV maxV (s :: rest) =
      (invalidMsg :: (get_valid_input minV maxV rest).1,
       (get_valid_input minV maxV rest).2.map bumpAttempt) := by
  simp [get_valid_input, hp]

theorem get_valid_input_cons_accept (minV maxV : ℚ) (s : String) (rest : List String)
    (v : PyFloat) (hp : parseFloat s = some v)
    (hv : (pyLe (PyFloat.finite minV) v && pyLe v (PyFloat.finite maxV)) = true) :
    get_valid_input minV maxV (s :: rest) = ([], some (v, 1, rest)) := by
  simp [get_valid_input, hp, hv]

theorem get_valid_input_cons_reject (minV maxV : ℚ) (s : String) (rest : List String)
    (v : PyFloat) (hp : parseFloat s = some v)
    (hv : (pyLe (PyFloat.finite minV) v && pyLe v (PyFloat.finite maxV)) = false) :
    get_valid_input minV maxV (s :: rest) =
      (rangeMsg minV maxV :: (get_valid_input minV maxV rest).1,
       (get_valid_input minV maxV rest).2.map bumpAttempt) := by
  simp [get_valid_input, hp, hv]

theorem get_valid_input_sound (minV maxV : ℚ) (stream : List String) :
    ∀ (msgs : List String) (v : PyFloat) (k : ℕ) (rest : List String),
      get_valid_input minV maxV stream = (msgs, some (v, k, rest)) →
      1 ≤ k ∧ k ≤ stream.length ∧ msgs.length = k - 1 ∧
      (∃ s, stream[k - 1]? = some s ∧ parseFloat s = some v ∧ validOk minV maxV s = true) ∧
      ∀ j, j < k - 1 → ∀ t, stream[j]? = some t → validOk minV maxV t = false := by
  induction stream with
  | nil =>
    intro msgs v k rest h
    simp [get_valid_input] at h
  | cons s rest' ih =>
    intro msgs v k rest h
    rcases hp : parseFloat s with _ | v0
    · rw [get_valid_input_cons_invalid _ _ _ _ hp] at h
      have hm := congrArg Prod.fst h
      have ho := congrArg Prod.snd h
      simp only at hm ho
      obtain ⟨p, hr2, hb⟩ := Option.map_eq_some'.mp ho
      obtain ⟨v1, k1, rest1⟩ := p
      simp only [bumpAttempt, Prod.mk.injEq] at hb
      obtain ⟨hv1, hk1, hr1⟩ := hb
      subst hv1 hr1
      have h' : get_valid_input minV maxV rest' =
          ((get_valid_input minV maxV rest').1, some (v1, k1, rest1)) := by
        rw [← hr2]
      obtain ⟨h1, h2, h3, ⟨s0, hs0, hps0, hvs0⟩, hbef⟩ := ih _ _ _ _ h'
      subst hm hk1
      refine ⟨by omega, by simp only [List.length_cons]; omega, ?_, ⟨s0, ?_, hps0, hvs0⟩, ?_⟩
      · simp only [List.length_cons]
        omega
      · have hk : k1 + 1 - 1 = (k1 - 1) + 1 := by omega
        rw [hk, List.getElem?_cons_succ]
        exact hs0
      · intro j hj t ht
        cases j with
        | zero =>
          rw [List.getElem?_cons_zero] at ht
          obtain rfl : s = t := by simpa using ht
          simp [validOk, hp]
        | succ j' =>
          rw [List.getElem?_cons_succ] at ht
          exact hbef j' (by omega) t ht
    · by_cases hv : (pyLe (PyFloat.finite minV) v0 && pyLe v0 (PyFloat.finite maxV)) = true
      · rw [get_valid_input_cons_accept _ _ _ _ _ hp hv] at h
        have hm := congrArg Prod.fst h
        have ho := congrArg Prod.snd h
        simp only [Option.some.injEq, Prod.mk.injEq] at hm ho
        obtain ⟨hv0, hk, hr⟩ := ho
        subst hv0 hk hr
        refine ⟨le_refl 1, by simp, by simp [← hm], ⟨s, by simp, hp, ?_⟩, ?_⟩
        · simp [validOk, hp, hv]
        · intro j hj t ht
          omega
      · rw [get_valid_input_cons_reject _ _ _ _ _ hp (by simpa using hv)] at h
        have hm := congrArg Prod.fst h
        have ho := congrArg Prod.snd h
        simp only at hm ho
        obtain ⟨p, hr2, hb⟩ := Option.map_eq_some'.mp ho
        obtain ⟨v1, k1, rest1⟩ := p
        simp only [bumpAttempt, Prod.mk.injEq] at hb
        obtain ⟨hv1, hk1, hr1⟩ := hb
        subst hv1 hr1
        have h' : get_valid_input minV maxV rest' =
            ((get_valid_input minV maxV rest').1, some (v1, k1, rest1)) := by
          rw [← hr2]
        obtain ⟨h1, h2, h3, ⟨s0, hs0, hps0, hvs0⟩, hbef⟩ := ih _ _ _ _ h'
        subst hm hk1
        refine ⟨by omega, by simp only [List.length_cons]; omega, ?_, ⟨s0, ?_, hps0, hvs0⟩, ?_⟩
        · simp only [List.length_cons]
          omega
        · have hk : k1 + 1 - 1 = (k1 - 1) + 1 := by omega
          rw [hk, List.getElem?_cons_succ]
          exact hs0
        · intro j hj t ht
          cases j with
          | zero =>
            rw [List.getElem?_cons_zero] at ht
            obtain rfl : s = t := by simpa using ht
            simp only [validOk, hp]
            simpa using hv
          | succ j' =>
            rw [List.getElem?_cons_succ] at ht
            exact hbef j' (by omega) t ht

theorem pyLe_between (a b : ℚ) (v : PyFloat)
    (h : (pyLe (PyFloat.finite a) v && pyLe v (PyFloat.finite b)) = true) :
    ∃ q, v = PyFloat.finite q ∧ a ≤ q ∧ q ≤ b := by
  cases v with
  | finite q =>
    have h2 : a ≤ q ∧ q ≤ b := by simpa [pyLe] using h
    exact ⟨q, rfl, h2.1, h2.2⟩
  | inf => simp [pyLe] at h
  | ninf => simp [pyLe] at h
  | nan => simp [pyLe] at h

theorem get_valid_input_finite (minV maxV : ℚ) (stream msgs : List String) (v : PyFloat)
    (k : ℕ) (rest : List String)
    (h : get_valid_input minV maxV stream = (msgs, some (v, k, rest))) :
    ∃ q, v = PyFloat.finite q ∧ minV ≤ q ∧ q ≤ maxV := by
  obtain ⟨-, -, -, ⟨s0, -, hps0, hvs0⟩, -⟩ := get_valid_input_sound minV maxV stream msgs v k rest h
  have hcond : (pyLe (PyFloat.finite minV) v && pyLe v (PyFloat.finite maxV)) = true := by
    simpa [validOk, hps0] using hvs0
  exact pyLe_between minV maxV v hcond

/-- C6: for every bounded range (minV, maxV) with minV ≤ maxV and every input
stream, get_valid_input returns the first stream element that parses as
numeric and satisfies minV <= value <= maxV, rejecting each earlier element
with a message and another attempt; in particular for range (10, 90) and the
stream "abc", "150", "45" it rejects the first two and returns exactly 45.0
on the third attempt. -/
theorem C6_collect_returns_first_valid :
    (∀ (minV maxV : ℚ), minV ≤ maxV →
      ∀ (stream msgs : List String) (v : PyFloat) (k : ℕ) (rest : List String),
        get_valid_input minV maxV stream = (msgs, some (v, k, rest)) →
        1 ≤ k ∧ k ≤ stream.length ∧ msgs.length = k - 1 ∧
        (∃ s, stream[k - 1]? = some s ∧ parseFloat s = some v ∧ validOk minV maxV s = true) ∧
        ∀ j, j < k - 1 → ∀ t, stream[j]? = some t → validOk minV maxV t = false) ∧
    get_valid_input 10 90 ["abc", "150", "45"] =
      ([invalidMsg, rangeMsg 10 90], some (PyFloat.finite 45, 3, [])) :=
  ⟨fun minV maxV _ stream msgs v k rest h =>
    get_valid_input_sound minV maxV stream msgs v k rest h,
   by decide⟩

/-- Witness for C6 at range (10, 90) and stream ["abc", "150", "45"]: the
value 45.0 is accepted on the third attempt after two rejections. -/
theorem C6_collect_returns_first_valid_witness :
    1 ≤ 3 ∧ 3 ≤ (["abc", "150", "45"] : List String).length ∧
    ([invalidMsg, rangeMsg 10 90] : List String).length = 3 - 1 ∧
    (∃ s, (["abc", "150", "45"] : List String)[3 - 1]? = some s ∧
      parseFloat s = some (PyFloat.finite 45) ∧ validOk 10 90 s = true) ∧
    ∀ j, j < 3 - 1 → ∀ t, (["abc", "150", "45"] : List String)[j]? = some t →
      validOk 10 90 t = false :=
  C6_collect_returns_first_valid.1 10 90 (by decide) ["abc", "150", "45"]
    [invalidMsg, rangeMsg 10 90] (PyFloat.finite 45) 3 [] (by decide)

/-- C9: every value get_valid_input returns is finite and lies within
[minV, maxV]; the inputs "nan", "inf" and "-inf" parse as floats without
raising, but fail the chained range comparison (NaN compares false to
everything) and cause a re-prompt, so the function never returns NaN or an
infinite value. -/
theorem C9_returned_value_finite_in_range :
    (∀ (minV maxV : ℚ) (stream msgs : List String) (v : PyFloat) (k : ℕ)
        (rest : List String),
        get_valid_input minV maxV stream = (msgs, some (v, k, rest)) →
        ∃ q, v = PyFloat.finite q ∧ minV ≤ q ∧ q ≤ maxV) ∧
    parseFloat "nan" = some PyFloat.nan ∧
    parseFloat "inf" = some PyFloat.inf ∧
    parseFloat "-inf" = some PyFloat.ninf ∧
    get_valid_input 10 90 ["nan", "inf", "-inf", "45"] =
      ([rangeMsg 10 90, rangeMsg 10 90, rangeMsg 10 90],
       some (PyFloat.finite 45, 4, [])) :=
  ⟨fun minV maxV stream msgs v k rest h =>
    get_valid_input_finite minV maxV stream msgs v k rest h,
   by decide, by decide, by decide, by decide⟩

/-- Witness for C9: on the stream ["nan", "inf", "-inf", "45"] with range
(10, 90) the returned value is the finite 45, inside the range. -/
theorem C9_returned_value_finite_in_range_witness :
    ∃ q, PyFloat.finite 45 = PyFloat.finite q ∧ (10 : ℚ) ≤ q ∧ q ≤ 90 :=
  C9_returned_value_finite_in_range.1 10 90 ["nan", "inf", "-inf", "45"]
    [rangeMsg 10 90, rangeMsg 10 90, rangeMsg 10 90] (PyFloat.finite 45) 4 []
    (by decide)

/-- The prompt/range table of predict_and_send_to_firebase, in the order the
Python dict literal declares it (and iterates it when gathering inputs). -/
def input_ranges : List (String × ℚ × ℚ) :=
  [("Air Humidity (%)", 10, 90),
   ("Air Temperature (°C)", 10, 45),
   ("Soil pH", 4, 9),
   ("Rainfall (mm)", 0, 300)]

/-- Embedding of the input-gathering list comprehension of
predict_and_send_to_firebase: one get_valid_input call per entry of the
prompt/range table, threading the console stream left to right.  none
models the loop still blocked on input when the console is exhausted. -/
def collectInputs : List (String × ℚ × ℚ) → List String → Option (List PyFloat × List String)
  | [], stream => some ([], stream)
  | e :: rs, stream =>
    match (get_valid_input e.2.1 e.2.2 stream).2 with
    | none => none
    | some (v, _, rest) =>
      match collectInputs rs rest with
      | none => none
      | some (vs, leftover) => some (v :: vs, leftover)

/-- A collected value answers its prompt/range table entry: it is a finite
float inside the entry's closed range. -/
def withinRange (e : String × ℚ × ℚ) (v : PyFloat) : Prop :=
  ∃ q, v = PyFloat.finite q ∧ e.2.1 ≤ q ∧ q ≤ e.2.2

theorem collectInputs_sound :
    ∀ (tbl : List (String × ℚ × ℚ)) (stream : List String) (vals : List PyFloat)
      (leftover : List String),
      collectInputs tbl stream = some (vals, leftover) →
      List.Forall₂ withinRange tbl vals := by
  intro tbl
  induction tbl with
  | nil =>
    intro stream vals leftover h
    simp only [collectInputs, Option.some.injEq, Prod.mk.injEq] at h
    rw [← h.1]
    exact List.Forall₂.nil
  | cons e rs ih =>
    intro stream vals leftover h
    rcases h0 : (get_valid_input e.2.1 e.2.2 stream).2 with _ | ⟨v, k, rest⟩
    · simp only [collectInputs, h0] at h
      exact Option.noConfusion h
    · rcases h1 : collectInputs rs rest with _ | ⟨vs, lo⟩
      · simp only [collectInputs, h0, h1] at h
        exact Option.noConfusion h
      · simp only [collectInputs, h0, h1, Option.some.injEq, Prod.mk.injEq] at h
        rw [← h.1]
        have hfull : get_valid_input e.2.1 e.2.2 stream =
            ((get_valid_input e.2.1 e.2.2 stream).1, some (v, k, rest)) := by
          rw [← h0]
        exact List.Forall₂.cons
          (get_valid_input_finite e.2.1 e.2.2 stream _ v k rest hfull)
          (ih rest vs lo h1)

/-- C10: the prediction path always collects exactly four inputs, in the
fixed order and closed ranges Air Humidity in [10, 90], Air Temperature in
[10, 45], Soil pH in [4, 9], Rainfall in [0, 300]; the table is a constant,
so the ranges and their order are the same on every run. -/
theorem C10_four_inputs_fixed_ranges :
    input_ranges =
      [("Air Humidity (%)", 10, 90), ("Air Temperature (°C)", 10, 45),
       ("Soil pH", 4, 9), ("Rainfall (mm)", 0, 300)] ∧
    ∀ (stream : List String) (vals : List PyFloat) (leftover : List String),
      collectInputs input_ranges stream = some (vals, leftover) →
      vals.length = 4 ∧
      ∃ q0 q1 q2 q3,
        vals = [PyFloat.finite q0, PyFloat.finite q1, PyFloat.finite q2, PyFloat.finite q3] ∧
        10 ≤ q0 ∧ q0 ≤ 90 ∧ 10 ≤ q1 ∧ q1 ≤ 45 ∧ 4 ≤ q2 ∧ q2 ≤ 9 ∧
        0 ≤ q3 ∧ q3 ≤ 300 := by
  refine ⟨rfl, ?_⟩
  intro stream vals leftover h
  have hf := collectInputs_sound input_ranges stream vals leftover h
  rcases hf with _ | ⟨h0, hf⟩
  rcases hf with _ | ⟨h1, hf⟩
  rcases hf with _ | ⟨h2, hf⟩
  rcases hf with _ | ⟨h3, hf⟩
  rcases hf
  obtain ⟨q0, rfl, h0a, h0b⟩ := h0
  obtain ⟨q1, rfl, h1a, h1b⟩ := h1
  obtain ⟨q2, rfl, h2a, h2b⟩ := h2
  obtain ⟨q3, rfl, h3a, h3b⟩ := h3
  exact ⟨rfl, q0, q1, q2, q3, rfl, h0a, h0b, h1a, h1b, h2a, h2b, h3a, h3b⟩

/-- Witness for C10 on the console stream "50", "20", "6", "100": four
finite values inside the declared ranges are collected. -/
theorem C10_four_inputs_fixed_ranges_witness :
    ([PyFloat.finite 50, PyFloat.finite 20, PyFloat.finite 6, PyFloat.finite 100] :
      List PyFloat).length = 4 ∧
    ∃ q0 q1 q2 q3,
      ([PyFloat.finite 50, PyFloat.finite 20, PyFloat.finite 6, PyFloat.finite 100] :
        List PyFloat) =
        [PyFloat.finite q0, PyFloat.finite q1, PyFloat.finite q2, PyFloat.finite q3] ∧
      10 ≤ q0 ∧ q0 ≤ 90 ∧ 10 ≤ q1 ∧ q1 ≤ 45 ∧ 4 ≤ q2 ∧ q2 ≤ 9 ∧
      0 ≤ q3 ∧ q3 ≤ 300 :=
  C10_four_inputs_fixed_ranges.2 ["50", "20", "6", "100"]
    [PyFloat.finite 50, PyFloat.finite 20, PyFloat.finite 6, PyFloat.finite 100] []
    (by decide)

/-- Modelled from the spec: StandardScaler.transform returns
(x - mean) / stddev per feature, pairing the i-th input with the i-th
fitted column statistic.  A stats entry is a (mean, stddev) pair as the
already-fitted scaler hands it to transform. -/
def transform (stats : List (ℚ × ℚ)) (xs : List ℚ) : List ℚ :=
  List.zipWith (fun st x => (x - st.1) / st.2) stats xs

/-- Rational value of a collected console float.  Values accepted by
get_valid_input are always finite (theorem get_valid_input_finite), so the
default branch is unreachable on the service path. -/
def PyFloat.toRat : PyFloat → ℚ
  | PyFloat.finite q => q
  | _ => 0

/-- Column order of the feature matrix X built by preprocess_data: the CSV
columns in load order, as echoed by the notebook's own data.head(1) output
(temperature, humidity, ph, rainfall, label), with the label columns
dropped. -/
def trainColumns : List String := ["temperature", "humidity", "ph", "rainfall"]

/-- The dataset column each prompt of input_ranges measures: Air Humidity is
the humidity column, Air Temperature the temperature column, Soil pH the ph
column, Rainfall the rainfall column. -/
def promptColumn (prompt : String) : String :=
  if prompt = "Air Humidity (%)" then "humidity"
  else if prompt = "Air Temperature (°C)" then "temperature"
  else if prompt = "Soil pH" then "ph"
  else if prompt = "Rainfall (mm)" then "rainfall"
  else ""

/-- The dataset columns measured by the prediction vector, in the order
predict_and_send_to_firebase gathers and passes them to the scaler. -/
def collectedColumns : List String :=
  input_ranges.map (fun e => promptColumn e.1)

/-- C1 fails on the code: the prediction vector is gathered in prompt order
(humidity, temperature, ph, rainfall) while the training matrix order is
(temperature, humidity, ph, rainfall), so transform positionally pairs the
humidity answer with the temperature column's statistics.  Concretely, with
the temperature column fitted at (mean 25, std 1) and humidity at
(mean 70, std 1), the collected vector (humidity 50, temperature 20, ph 6,
rainfall 100) is standardized to ((50-25)/1, (20-70)/1, 0, 0) =
(25, -50, 0, 0): the humidity reading is scaled with the temperature
statistics and vice versa. -/
theorem C1_feature_order_mismatch :
    collectedColumns = ["humidity", "temperature", "ph", "rainfall"] ∧
    trainColumns = ["temperature", "humidity", "ph", "rainfall"] ∧
    collectedColumns ≠ trainColumns ∧
    collectedColumns[0]? = some "humidity" ∧
    trainColumns[0]? = some "temperature" ∧
    transform [(25, 1), (70, 1), (6, 1), (100, 1)] [50, 20, 6, 100] =
      [25, -50, 0, 0] := by
  refine ⟨by decide, rfl, by decide, by decide, rfl, ?_⟩
  simp only [transform, List.zipWith]
  norm_num

/-- Observable effects of the notebook's orchestration code: console
prints, an input collected for a prompt, and the two RemoteStore calls. -/
inductive Event where
  | printed (msg : String)
  | collected (prompt : String) (value : PyFloat)
  | remoteGet (path : String)
  | remotePut (path key value : String)
deriving DecidableEq, Repr

/-- Events of the try/except around the Firebase put: on success the put
and the success print; on any exception the handler's error print (the
exception is swallowed, never re-raised). -/
def sendEvents (putResult : Except String Unit) (crop : String) : List Event :=
  match putResult with
  | Except.ok _ =>
    [Event.remotePut "/croppredicted" "crop" crop,
     Event.printed "Prediction successfully sent to Firebase!"]
  | Except.error e =>
    [Event.printed ("Error sending data to Firebase: " ++ e)]

/-- Embedding of predict_and_send_to_firebase.  The trained classifier is an
opaque function from the scaled feature vector to a class code, the scaler
the fitted per-column (mean, stddev) list, le the fitted class list of the
label encoder (le.inverse_transform is indexing into it), putResult the
outcome of the remote call, stream the console.  none models being blocked
on console input or an out-of-range class code (where inverse_transform
would raise).  The trace records the collected inputs, the crop print, and
the try/except around the put. -/
def predict_and_send_to_firebase (clf : List ℚ → ℕ) (scaler : List (ℚ × ℚ))
    (le : List String) (putResult : Except String Unit) (stream : List String) :
    Option (List Event) :=
  match collectInputs input_ranges stream with
  | none => none
  | some (vals, _) =>
    match le[clf (transform scaler (vals.map PyFloat.toRat))]? with
    | none => none
    | some crop =>
      some (List.zipWith (fun e v => Event.collected e.1 v) input_ranges vals ++
        (Event.printed ("The predicted crop is: " ++ crop) ::
          sendEvents putResult crop))

/-- Embedding of main's gating logic, parameterized by the artifacts of the
(earlier, input-free) training phase: tp is the result of the
firebase get on /Realtime; only when it is not None does the
predict-and-publish path run, otherwise the absence is reported. -/
def main (clf : List ℚ → ℕ) (scaler : List (ℚ × ℚ)) (le : List String)
    (tp : Option String) (putResult : Except String Unit) (stream : List String) :
    Option (List Event) :=
  match tp with
  | some _ =>
    (predict_and_send_to_firebase clf scaler le putResult stream).map
      (fun tr => Event.remoteGet "/Realtime" :: tr)
  | none =>
    some [Event.remoteGet "/Realtime",
          Event.printed "Failed to retrieve data from Firebase."]

/-- C7: the service performs the RemoteStore.get gating check before any
interactive input; on an absent result the trace is exactly the get and the
absence report (so no input is collected and no prediction is computed),
and on a present result the predict-and-publish path runs after the get. -/
theorem C7_remote_get_gates_prediction :
    ∀ (clf : List ℚ → ℕ) (scaler : List (ℚ × ℚ)) (le : List String)
      (tp : Option String) (putResult : Except String Unit) (stream : List String),
      (tp = none →
        main clf scaler le tp putResult stream =
          some [Event.remoteGet "/Realtime",
                Event.printed "Failed to retrieve data from Firebase."]) ∧
      (∀ v, tp = some v →
        main clf scaler le tp putResult stream =
          (predict_and_send_to_firebase clf scaler le putResult stream).map
            (fun tr => Event.remoteGet "/Realtime" :: tr)) ∧
      (∀ tr, main clf scaler le tp putResult stream = some tr →
        tr.head? = some (Event.remoteGet "/Realtime")) := by
  intro clf scaler le tp putResult stream
  refine ⟨?_, ?_, ?_⟩
  · rintro rfl
    rfl
  · rintro v rfl
    rfl
  · intro tr h
    cases tp with
    | none =>
      simp only [main, Option.some.injEq] at h
      rw [← h]
      rfl
    | some v =>
      simp only [main] at h
      rcases hp : predict_and_send_to_firebase clf scaler le putResult stream with _ | tr0
      · rw [hp] at h
        exact Option.noConfusion h
      · rw [hp] at h
        simp only [Option.map_some', Option.some.injEq] at h
        rw [← h]
        rfl

/-- Witness for C7: with the gate absent the trace is exactly the get and
the failure report; with the gate present the trace starts with the get. -/
theorem C7_remote_get_gates_prediction_witness :
    (main (fun _ => 1) [(0, 1), (0, 1), (0, 1), (0, 1)] ["maize", "rice"] none
        (Except.ok ()) [] =
      some [Event.remoteGet "/Realtime",
            Event.printed "Failed to retrieve data from Firebase."]) ∧
    (Event.remoteGet "/Realtime" ::
        (Event.collected "Air Humidity (%)" (PyFloat.finite 50) ::
          Event.collected "Air Temperature (°C)" (PyFloat.finite 20) ::
          Event.collected "Soil pH" (PyFloat.finite 6) ::
          Event.collected "Rainfall (mm)" (PyFloat.finite 100) ::
          Event.printed "The predicted crop is: rice" ::
          sendEvents (Except.ok ()) "rice")).head? =
      some (Event.remoteGet "/Realtime") :=
  ⟨(C7_remote_get_gates_prediction (fun _ => 1) [(0, 1), (0, 1), (0, 1), (0, 1)]
      ["maize", "rice"] none (Except.ok ()) []).1 rfl,
   (C7_remote_get_gates_prediction (fun _ => 1) [(0, 1), (0, 1), (0, 1), (0, 1)]
      ["maize", "rice"] (some "x") (Except.ok ()) ["50", "20", "6", "100"]).2.2
     (Event.remoteGet "/Realtime" ::
        (Event.collected "Air Humidity (%)" (PyFloat.finite 50) ::
          Event.collected "Air Temperature (°C)" (PyFloat.finite 20) ::
          Event.collected "Soil pH" (PyFloat.finite 6) ::
          Event.collected "Rainfall (mm)" (PyFloat.finite 100) ::
          Event.printed "The predicted crop is: rice" ::
          sendEvents (Except.ok ()) "rice"))
     (by decide)⟩

/-- C8: when the Firebase put after a prediction fails, the exception is
caught and reported, the function still returns normally, and the
already-printed predicted label is unchanged: the failing trace is the
successful trace's prefix (inputs, prediction print) followed by the error
report, and the same prefix ends the same way on a successful put. -/
theorem C8_put_failure_isolated :
    ∀ (clf : List ℚ → ℕ) (scaler : List (ℚ × ℚ)) (le : List String)
      (stream : List String) (e : String) (tr : List Event),
      predict_and_send_to_firebase clf scaler le (Except.error e) stream = some tr →
      ∃ crop pre,
        Event.printed ("The predicted crop is: " ++ crop) ∈ pre ∧
        tr = pre ++ [Event.printed ("Error sending data to Firebase: " ++ e)] ∧
        predict_and_send_to_firebase clf scaler le (Except.ok ()) stream =
          some (pre ++
            [Event.remotePut "/croppredicted" "crop" crop,
             Event.printed "Prediction successfully sent to Firebase!"]) := by
  intro clf scaler le stream e tr h
  rcases hc : collectInputs input_ranges stream with _ | ⟨vals, lo⟩
  · rw [predict_and_send_to_firebase, hc] at h
    exact Option.noConfusion h
  · rcases hd : le[clf (transform scaler (vals.map PyFloat.toRat))]? with _ | crop
    · rw [predict_and_send_to_firebase, hc] at h
      simp only [hd] at h
      exact Option.noConfusion h
    · rw [predict_and_send_to_firebase, hc] at h
      simp only [hd, Option.some.injEq] at h
      refine ⟨crop,
        List.zipWith (fun e v => Event.collected e.1 v) input_ranges vals ++
          [Event.printed ("The predicted crop is: " ++ crop)], ?_, ?_, ?_⟩
      · simp
      · rw [← h]
        simp [sendEvents]
      · rw [predict_and_send_to_firebase, hc]
        simp [hd, sendEvents]

/-- Witness for C8 on the console stream "50", "20", "6", "100" with a
constant classifier, encoder classes maize/rice, and a failing put. -/
theorem C8_put_failure_isolated_witness :
    ∃ crop pre,
      Event.printed ("The predicted crop is: " ++ crop) ∈ pre ∧
      (Event.collected "Air Humidity (%)" (PyFloat.finite 50) ::
        Event.collected "Air Temperature (°C)" (PyFloat.finite 20) ::
        Event.collected "Soil pH" (PyFloat.finite 6) ::
        Event.collected "Rainfall (mm)" (PyFloat.finite 100) ::
        Event.printed "The predicted crop is: rice" ::
        sendEvents (Except.error "boom") "rice") =
        pre ++ [Event.printed ("Error sending data to Firebase: " ++ "boom")] ∧
      predict_and_send_to_firebase (fun _ => 1) [(0, 1), (0, 1), (0, 1), (0, 1)]
          ["maize", "rice"] (Except.ok ()) ["50", "20", "6", "100"] =
        some (pre ++
          [Event.remotePut "/croppredicted" "crop" crop,
           Event.printed "Prediction successfully sent to Firebase!"]) :=
  C8_put_failure_isolated (fun _ => 1) [(0, 1), (0, 1), (0, 1), (0, 1)]
    ["maize", "rice"] ["50", "20", "6", "100"] "boom"
    (Event.collected "Air Humidity (%)" (PyFloat.finite 50) ::
      Event.collected "Air Temperature (°C)" (PyFloat.finite 20) ::
      Event.collected "Soil pH" (PyFloat.finite 6) ::
      Event.collected "Rainfall (mm)" (PyFloat.finite 100) ::
      Event.printed "The predicted crop is: rice" ::
      sendEvents (Except.error "boom") "rice")
    (by decide)

/-- Error raised by the label encoder on a label never seen at fit time. -/
inductive EncodeErr where
  | unknownLabel
deriving DecidableEq, Repr

/-- Modelled from the spec: sklearn's LabelEncoder.fit assigns each distinct
label a code by ascending lexical order of the distinct label strings
(np.unique), so the fitted encoding is the sorted list of distinct labels
and a label's code is its index in it. -/
def le_fit (labels : List String) : List String :=
  labels.dedup.mergeSort (fun a b => a ≤ b)

/-- Modelled from the spec: LabelEncoder.transform on one label returns its
code (index in the fitted class list) or fails with UnknownLabel. -/
def encode (classes : List String) (l : String) : Except EncodeErr ℕ :=
  match classes with
  | [] => Except.error EncodeErr.unknownLabel
  | c :: cs =>
    if c = l then Except.ok 0
    else (encode cs l).map (fun i => i + 1)

/-- Modelled from the spec: LabelEncoder.inverse_transform on one code is
indexing into the fitted class list; an out-of-range code fails. -/
def decode (classes : List String) (code : ℕ) : Option String :=
  classes[code]?

theorem encode_mem :
    ∀ (classes : List String) (l : String), l ∈ classes →
      ∃ c, encode classes l = Except.ok c ∧ decode classes c = some l := by
  intro classes
  induction classes with
  | nil =>
    intro l hl
    exact absurd hl (List.not_mem_nil l)
  | cons c cs ih =>
    intro l hl
    by_cases hc : c = l
    · exact ⟨0, by simp [encode, hc], by simp [decode, hc]⟩
    · have hl' : l ∈ cs := by
        rcases List.mem_cons.mp hl with h | h
        · exact absurd h.symm hc
        · exact h
      obtain ⟨c0, he, hd⟩ := ih l hl'
      refine ⟨c0 + 1, ?_, ?_⟩
      · simp [encode, hc, he, Except.map]
      · simpa [decode] using hd

theorem encode_not_mem :
    ∀ (classes : List String) (l : String), l ∉ classes →
      encode classes l = Except.error EncodeErr.unknownLabel := by
  intro classes
  induction classes with
  | nil =>
    intro l _
    rfl
  | cons c cs ih =>
    intro l hl
    have hc : c ≠ l := fun h => hl (h ▸ List.mem_cons_self c cs)
    have hl' : l ∉ cs := fun h => hl (List.mem_cons_of_mem c h)
    simp [encode, hc, ih l hl', Except.map]

theorem mem_le_fit (labels : List String) (l : String) :
    l ∈ le_fit labels ↔ l ∈ labels := by
  rw [le_fit]
  rw [List.Perm.mem_iff (List.mergeSort_perm labels.dedup _)]
  exact List.mem_dedup

/-- C2: for every label set used at fit time, decoding the code of any label
seen during fit returns that exact label, and encode applied to a label
absent from the fit set fails with UnknownLabel rather than returning a
code. -/
theorem C2_encode_decode_round_trip :
    (∀ (labels : List String) (l : String), l ∈ labels →
      ∃ c, encode (le_fit labels) l = Except.ok c ∧
        decode (le_fit labels) c = some l) ∧
    (∀ (labels : List String) (l : String), l ∉ labels →
      encode (le_fit labels) l = Except.error EncodeErr.unknownLabel) :=
  ⟨fun labels l hl => encode_mem (le_fit labels) l ((mem_le_fit labels l).mpr hl),
   fun labels l hl => encode_not_mem (le_fit labels) l
     (fun h => hl ((mem_le_fit labels l).mp h))⟩

/-- Witness for C2 on the fit set ["rice", "maize"]: "rice" round-trips
through encode and decode, and the unseen "wheat" fails with UnknownLabel. -/
theorem C2_encode_decode_round_trip_witness :
    (∃ c, encode (le_fit ["rice", "maize"]) "rice" = Except.ok c ∧
      decode (le_fit ["rice", "maize"]) c = some "rice") ∧
    encode (le_fit ["rice", "maize"]) "wheat" =
      Except.error EncodeErr.unknownLabel :=
  ⟨C2_encode_decode_round_trip.1 ["rice", "maize"] "rice" (by decide),
   C2_encode_decode_round_trip.2 ["rice", "maize"] "wheat" (by decide)⟩

/-- A linear congruential step, standing in for the seeded pseudorandom
number generator behind train_test_split's random_state. -/
def lcg (s : ℕ) : ℕ :=
  (1103515245 * s + 12345) % 2147483648

/-- Modelled from the spec: the seeded deterministic pseudorandom
permutation of row indices used by train_test_split, realized as repeated
seeded selection: pick the element at a pseudorandom position, then
permute the rest with the advanced seed.  The fuel argument is the list
length at the top call. -/
def shuffleAux : ℕ → ℕ → List ℕ → List ℕ
  | 0, _, xs => xs
  | fuel + 1, s, xs =>
    if h : xs = [] then []
    else
      let x := xs.getD (lcg s % xs.length) 0
      x :: shuffleAux fuel (lcg s) (xs.erase x)

/-- The seeded pseudorandom permutation of a list of row indices. -/
def shuffle (seed : ℕ) (xs : List ℕ) : List ℕ :=
  shuffleAux xs.length seed xs

/-- Modelled from the spec: the test-set size round(test_size * N). -/
def test_size_count (ts : ℚ) (n : ℕ) : ℕ :=
  (round (ts * n)).toNat

/-- Modelled from the spec: train_test_split permutes the row indices
0..N-1 with the seeded generator, assigns the first round(test_size * N)
permuted indices to the test set and the remainder to the train set,
returned here as (train indices, test indices). -/
def train_test_split (ts : ℚ) (seed n : ℕ) : List ℕ × List ℕ :=
  let p := shuffle seed (List.range n)
  let k := test_size_count ts n
  (p.drop k, p.take k)

theorem shuffleAux_perm : ∀ (fuel s : ℕ) (xs : List ℕ), (shuffleAux fuel s xs).Perm xs := by
  intro fuel
  induction fuel with
  | zero =>
    intro s xs
    exact List.Perm.refl xs
  | succ n ih =>
    intro s xs
    by_cases h : xs = []
    · subst h
      simp [shuffleAux]
    · have hlen : 0 < xs.length := List.length_pos.mpr h
      have hidx : lcg s % xs.length < xs.length := Nat.mod_lt _ hlen
      have hx : xs.getD (lcg s % xs.length) 0 ∈ xs := by
        rw [List.getD_eq_getElem xs 0 hidx]
        exact List.getElem_mem hidx
      simp only [shuffleAux, dif_neg h]
      exact ((ih (lcg s) _).cons _).trans (List.perm_cons_erase hx).symm

theorem shuffle_perm (seed : ℕ) (xs : List ℕ) : (shuffle seed xs).Perm xs :=
  shuffleAux_perm xs.length seed xs

theorem shuffle_range_nodup (seed n : ℕ) : (shuffle seed (List.range n)).Nodup :=
  ((shuffle_perm seed (List.range n)).nodup_iff).mpr (List.nodup_range n)

theorem test_size_count_le (ts : ℚ) (n : ℕ) (h0 : 0 ≤ ts) (h1 : ts ≤ 1) :
    test_size_count ts n ≤ n := by
  rw [test_size_count]
  have hle : ts * (n : ℚ) ≤ (n : ℚ) := by
    calc ts * (n : ℚ) ≤ 1 * (n : ℚ) := mul_le_mul_of_nonneg_right h1 (Nat.cast_nonneg n)
    _ = (n : ℚ) := one_mul _
  have h2 : ((round (ts * (n : ℚ)) : ℤ) : ℚ) ≤ (n : ℚ) + 1 / 2 :=
    le_trans (round_le_add_half _) (by linarith)
  have h3 : round (ts * (n : ℚ)) ≤ (n : ℤ) := by
    by_contra hcon
    push_neg at hcon
    have h4 : ((n : ℤ) : ℚ) + 1 ≤ ((round (ts * (n : ℚ)) : ℤ) : ℚ) := by
      exact_mod_cast Int.add_one_le_iff.mpr hcon
    push_cast at h4 h2
    linarith
  exact Int.toNat_le.mpr (by exact_mod_cast h3)

/-- C3: for every dataset size N, test fraction in [0, 1] and seed, the
split's train and test index lists are disjoint, together they are exactly
the full index set 0..N-1, the test set has round(ts * N) rows, and the
same seed always yields the same partition. -/
theorem C3_split_disjoint_union_sized :
    ∀ (ts : ℚ) (seed n : ℕ), 0 ≤ ts → ts ≤ 1 →
      List.Disjoint (train_test_split ts seed n).1 (train_test_split ts seed n).2 ∧
      (∀ i, (i ∈ (train_test_split ts seed n).1 ∨ i ∈ (train_test_split ts seed n).2) ↔
        i ∈ List.range n) ∧
      (train_test_split ts seed n).2.length = test_size_count ts n ∧
      ∀ seed2, seed2 = seed → train_test_split ts seed2 n = train_test_split ts seed n := by
  intro ts seed n h0 h1
  have e1 : (train_test_split ts seed n).1 =
      (shuffle seed (List.range n)).drop (test_size_count ts n) := rfl
  have e2 : (train_test_split ts seed n).2 =
      (shuffle seed (List.range n)).take (test_size_count ts n) := rfl
  have hnd : (shuffle seed (List.range n)).Nodup := shuffle_range_nodup seed n
  have hnd2 : ((shuffle seed (List.range n)).take (test_size_count ts n) ++
      (shuffle seed (List.range n)).drop (test_size_count ts n)).Nodup := by
    rw [List.take_append_drop]
    exact hnd
  obtain ⟨-, -, hdisj⟩ := List.nodup_append.mp hnd2
  have hplen : (shuffle seed (List.range n)).length = n := by
    rw [(shuffle_perm seed (List.range n)).length_eq, List.length_range]
  refine ⟨?_, ?_, ?_, fun seed2 h2 => by rw [h2]⟩
  · rw [e1, e2]
    exact hdisj.symm
  · intro i
    rw [e1, e2, or_comm, ← List.mem_append, List.take_append_drop]
    exact (shuffle_perm seed (List.range n)).mem_iff
  · rw [e2, List.length_take, hplen]
    exact Nat.min_eq_left (test_size_count_le ts n h0 h1)

/-- Witness for C3 at test fraction 3/10, seed 42, N = 10. -/
theorem C3_split_disjoint_union_sized_witness :
    List.Disjoint (train_test_split (3 / 10) 42 10).1 (train_test_split (3 / 10) 42 10).2 ∧
    (∀ i, (i ∈ (train_test_split (3 / 10) 42 10).1 ∨
        i ∈ (train_test_split (3 / 10) 42 10).2) ↔ i ∈ List.range 10) ∧
    (train_test_split (3 / 10) 42 10).2.length = test_size_count (3 / 10) 10 ∧
    ∀ seed2, seed2 = 42 → train_test_split (3 / 10) seed2 10 = train_test_split (3 / 10) 42 10 :=
  C3_split_disjoint_union_sized (3 / 10) 42 10 (by norm_num) (by norm_num)

theorem split_disjoint (ts : ℚ) (seed n : ℕ) :
    List.Disjoint (train_test_split ts seed n).1 (train_test_split ts seed n).2 := by
  have hnd2 : ((shuffle seed (List.range n)).take (test_size_count ts n) ++
      (shuffle seed (List.range n)).drop (test_size_count ts n)).Nodup := by
    rw [List.take_append_drop]
    exact shuffle_range_nodup seed n
  obtain ⟨-, -, hdisj⟩ := List.nodup_append.mp hnd2
  exact hdisj.symm

/-- Column j of a row-major feature matrix. -/
def columnOf (rows : List (List ℚ)) (j : ℕ) : List ℚ :=
  rows.map (fun r => r.getD j 0)

/-- Mean of a list of rationals. -/
def meanQ (xs : List ℚ) : ℚ :=
  xs.sum / xs.length

/-- Population variance of a list of rationals. -/
def varQ (xs : List ℚ) : ℚ :=
  ((xs.map (fun x => (x - meanQ xs) ^ 2)).sum) / xs.length

/-- Modelled from the spec: StandardScaler.fit computes column-wise mean
and population standard deviation over the training features only.
Recorded as (mean, variance) pairs to stay in ℚ; the standard deviation is
the square root of the variance, so two fits agree on (mean, stddev)
exactly when they agree on these pairs. -/
def scaler_fit (rows : List (List ℚ)) (ncols : ℕ) : List (ℚ × ℚ) :=
  (List.range ncols).map (fun j => (meanQ (columnOf rows j), varQ (columnOf rows j)))

/-- The train-side rows of preprocess_data: the dataset rows selected by
the train indices of the seed-42 70/30 split. -/
def trainRows (data : List (List ℚ × String)) : List (List ℚ) :=
  (train_test_split (3 / 10) 42 data.length).1.map (fun i => (data.getD i ([], "")).1)

/-- Embedding of the scaler statistics computed inside preprocess_data:
scaler.fit_transform(X_train) fits the statistics on the train partition
only; X_test is merely transformed with them. -/
def preprocess_stats (data : List (List ℚ × String)) : List (ℚ × ℚ) :=
  scaler_fit (trainRows data) 4

/-- C4: the fitted scaler statistics are a function of the training
partition only: replacing any row belonging to the test partition of the
split by an arbitrary other row leaves the computed statistics unchanged,
so no information from the test partition flows into them. -/
theorem C4_stats_from_train_only :
    ∀ (data : List (List ℚ × String)) (i : ℕ) (row : List ℚ) (lbl : String),
      i ∈ (train_test_split (3 / 10) 42 data.length).2 →
      preprocess_stats (data.set i (row, lbl)) = preprocess_stats data := by
  intro data i row lbl hi
  have hlen : (data.set i (row, lbl)).length = data.length := List.length_set data i _
  unfold preprocess_stats trainRows
  rw [hlen]
  congr 1
  apply List.map_congr_left
  intro j hj
  have hne : i ≠ j := by
    intro h
    subst h
    exact split_disjoint (3 / 10) 42 data.length hj hi
  rw [List.getD_eq_getElem?_getD, List.getD_eq_getElem?_getD,
    List.getElem?_set_ne hne]

/-- Witness for C4: the seed-42 split of two rows sends row 1 to the test
partition; replacing that row leaves the fitted statistics unchanged. -/
theorem C4_stats_from_train_only_witness :
    preprocess_stats ((([([20, 80, 6, 200], "rice"), ([25, 40, 7, 100], "maize")] :
        List (List ℚ × String))).set 1 ([99, 99, 9, 9], "wheat")) =
      preprocess_stats [([20, 80, 6, 200], "rice"), ([25, 40, 7, 100], "maize")] := by
  have hsplit : train_test_split (3 / 10) 42
      ([([20, 80, 6, 200], "rice"), ([25, 40, 7, 100], "maize")] :
        List (List ℚ × String)).length = ([0], [1]) := by
    have hk : test_size_count (3 / 10) 2 = 1 := by
      have hr : round ((3 : ℚ) / 10 * (2 : ℕ)) = 1 := by
        norm_num [round_eq]
      rw [test_size_count, hr]
      rfl
    show train_test_split (3 / 10) 42 2 = ([0], [1])
    rw [train_test_split]
    rw [hk]
    rfl
  exact C4_stats_from_train_only
    [([20, 80, 6, 200], "rice"), ([25, 40, 7, 100], "maize")] 1 [99, 99, 9, 9] "wheat"
    (by rw [hsplit]; exact List.mem_singleton.mpr rfl)

/-- Modelled from the spec: classification_report's per-class precision,
TP / (TP + FP), 0 when the denominator is 0. -/
def precisionM (tp fp : ℚ) : ℚ :=
  if tp + fp = 0 then 0 else tp / (tp + fp)

/-- Modelled from the spec: classification_report's per-class recall,
TP / (TP + FN), 0 when the denominator is 0. -/
def recallM (tp fn : ℚ) : ℚ :=
  if tp + fn = 0 then 0 else tp / (tp + fn)

/-- Modelled from the spec: classification_report's per-class f1,
2·p·r / (p + r), 0 when both are 0. -/
def f1M (p r : ℚ) : ℚ :=
  if p + r = 0 then 0 else 2 * p * r / (p + r)

/-- Modelled from the spec: a class's support is the count of its true
instances, TP + FN. -/
def supportM (tp fn : ℕ) : ℕ :=
  tp + fn

/-- C5: on the confusion counts TP=8, FP=2, FN=1, TN=9 for class A, the
evaluator reports precision 0.8, recall 8/9 ≈ 0.889, f1 16/19 ≈ 0.842 and
support 9, with each metric 0 whenever its denominator is 0. -/
theorem C5_worked_confusion_matrix :
    precisionM 8 2 = 8 / 10 ∧
    recallM 8 1 = 8 / 9 ∧
    |recallM 8 1 - 889 / 1000| < 1 / 1000 ∧
    f1M (precisionM 8 2) (recallM 8 1) = 16 / 19 ∧
    |f1M (precisionM 8 2) (recallM 8 1) - 842 / 1000| < 1 / 1000 ∧
    supportM 8 1 = 9 ∧
    precisionM 0 0 = 0 ∧ recallM 0 0 = 0 ∧ f1M 0 0 = 0 := by
  norm_num [precisionM, recallM, f1M, supportM]
  constructor <;> · rw [abs_of_pos (by norm_num)]; norm_num

end CropPrediction
